import Mathlib

/-!
Verification of the capacity-aware K-Means clustering module
(`src/clustering/cluster_students_kmeans.py`) of the classride repository.

The Python module is embedded shallowly:

* a Python `(lat, lng)` float pair becomes a `Point := ℚ × ℚ` (exact
  rational arithmetic stands in for IEEE floats);
* the process-wide seeded `random` stream becomes an explicit `RNG`
  value (a stream of naturals) threaded through every function that
  draws from it, consumed in the same order as the Python code consumes
  the global generator;
* the float sentinel `(nan, nan)` used by `recompute_centroids` for an
  empty cluster becomes `none : Option Point`;
* any list access or random draw that would raise in Python
  (`IndexError` from `centroids[c]`, `random.choice([])`,
  `ValueError` from `random.sample`) makes the embedded function
  return `none` in its outer `Option` layer.
-/

namespace ClassRide

/-- A 2-D coordinate pair, the embedding of a Python `(lat, lng)` tuple. -/
abbrev Point : Type := ℚ × ℚ

/-- The seeded random source: an infinite stream of naturals standing in
for the process-wide `random` generator seeded by `random.seed(seed)`. -/
structure RNG where
  stream : Nat → Nat

/-- Advance the stream by one consumed value. -/
def RNG.next (r : RNG) : RNG := ⟨fun i => r.stream (i + 1)⟩

/-- Draw an index uniformly below `n`, consuming one stream value.
Drawing from an empty range (as `random.choice` on an empty sequence
would) yields `none`. -/
def RNG.draw (r : RNG) (n : Nat) : Option Nat × RNG :=
  (if n = 0 then none else some (r.stream 0 % n), r.next)

/-- `euclidean2(a, b)`: squared Euclidean distance. -/
def euclidean2 (a b : Point) : ℚ :=
  (a.1 - b.1) ^ 2 + (a.2 - b.2) ^ 2

/-- `choose_k(n, target_capacity)`: number of clusters for a group of
size `n`, `ceil(n / max(1, target_capacity))` clamped to `[1, n]`,
and `0` for `n ≤ 0`. -/
def choose_k (n target_capacity : ℤ) : ℤ :=
  if n ≤ 0 then 0
  else max 1 (min ⌈(n : ℚ) / ((max 1 target_capacity : ℤ) : ℚ)⌉ n)

/-- `random.sample(l, k)`: `k` elements drawn without replacement.
Each draw picks an index below the number of remaining elements and
removes the chosen element; sampling more elements than remain fails. -/
def sample (l : List Point) (k : Nat) (r : RNG) : Option (List Point × RNG) :=
  match k with
  | 0 => some ([], r)
  | k + 1 =>
    match r.draw l.length with
    | (none, _) => none
    | (some i, r2) =>
      match l.get? i with
      | none => none
      | some p =>
        match sample (l.eraseIdx i) k r2 with
        | none => none
        | some (ps, r3) => some (p :: ps, r3)

/-- `init_centroids(points, k)`: the points themselves when `k` covers
them all, otherwise `k` random unique points. -/
def init_centroids (points : List Point) (k : Nat) (r : RNG) :
    Option (List Point × RNG) :=
  if points.length ≤ k then some (points, r) else sample points k r

/-- The inner loop `for c in range(1, k)` of the assign step: scan
centroids `c, c+1, ..., k-1` keeping the index `bc` of the smallest
squared distance `bd` seen so far, updating only on a strictly smaller
distance.  A missing centroid entry (Python `IndexError`) or an
undefined (NaN) one is an error. -/
def bestClusterGo (p : Point) (cents : List (Option Point)) (k c bc : Nat)
    (bd : ℚ) : Option Nat :=
  if h : k ≤ c then some bc
  else
    match cents.get? c with
    | none => none
    | some none => none
    | some (some q) =>
      if euclidean2 p q < bd then bestClusterGo p cents k (c + 1) c (euclidean2 p q)
      else bestClusterGo p cents k (c + 1) bc bd
termination_by k - c
decreasing_by all_goals omega

/-- The assign step for one point: start at `best_c = 0`,
`best_d = euclidean2(p, centroids[0])` and scan the remaining centroids. -/
def bestCluster (p : Point) (cents : List (Option Point)) (k : Nat) :
    Option Nat :=
  match cents.get? 0 with
  | none => none
  | some none => none
  | some (some q0) => bestClusterGo p cents k 1 0 (euclidean2 p q0)

/-- The assign step `for i, p in enumerate(points)`: recompute every
point's best cluster, reading the previous assignment to maintain the
`changed` flag. -/
def assignPoints (points : List Point) (cents : List (Option Point))
    (k : Nat) (asgn : List Nat) : Option (List Nat × Bool) :=
  match points, asgn with
  | [], _ => some ([], false)
  | _ :: _, [] => none
  | p :: ps, a :: rest =>
    match bestCluster p cents k with
    | none => none
    | some b =>
      match assignPoints ps cents k rest with
      | none => none
      | some (bs, ch) => some (b :: bs, ((a != b) || ch))

/-- The accumulation loop of `recompute_centroids`:
`for p, c in zip(points, assignments): sums[c] += p; counts[c] += 1`. -/
def accumulate (sums : List Point) (counts : List Nat)
    (pcs : List (Point × Nat)) : Option (List Point × List Nat) :=
  match pcs with
  | [] => some (sums, counts)
  | (p, c) :: rest =>
    match sums.get? c, counts.get? c with
    | some s, some cnt =>
      accumulate (sums.set c (s.1 + p.1, s.2 + p.2)) (counts.set c (cnt + 1)) rest
    | _, _ => none

/-- `recompute_centroids(points, assignments, k)`: per-cluster
arithmetic means; a cluster with no assigned points yields the
undefined (NaN) sentinel, embedded as `none`. -/
def recompute_centroids (points : List Point) (asgn : List Nat) (k : Nat) :
    Option (List (Option Point)) :=
  match accumulate (List.replicate k ((0 : ℚ), (0 : ℚ)))
      (List.replicate k 0) (points.zip asgn) with
  | none => none
  | some (sums, counts) =>
    some ((List.range k).map (fun i =>
      if counts.getD i 0 = 0 then none
      else some ((sums.getD i (0, 0)).1 / (counts.getD i 0 : ℚ),
                 (sums.getD i (0, 0)).2 / (counts.getD i 0 : ℚ))))

/-- The re-seed loop `for c in range(k)` of `kmeans`: replace every
undefined (NaN) centroid by `random.choice(points)` and record the
change. -/
def reseedGo (points : List Point) (cents : List (Option Point))
    (k c : Nat) (r : RNG) (changed : Bool) :
    Option (List (Option Point) × RNG × Bool) :=
  if h : k ≤ c then some (cents, r, changed)
  else
    match cents.get? c with
    | none => none
    | some (some _) => reseedGo points cents k (c + 1) r changed
    | some none =>
      match r.draw points.length with
      | (none, _) => none
      | (some i, r2) =>
        match points.get? i with
        | none => none
        | some p => reseedGo points (cents.set c (some p)) k (c + 1) r2 true
termination_by k - c
decreasing_by all_goals omega

/-- The loop state of `kmeans`: current assignments, current centroids,
current random source. -/
abbrev KState : Type := List Nat × List (Option Point) × RNG

/-- One assign → recompute → re-seed cycle of the `kmeans` loop body,
returning the new state and the iteration's `changed` flag. -/
def kmeansStep (points : List Point) (k : Nat) (st : KState) :
    Option (KState × Bool) :=
  match assignPoints points st.2.1 k st.1 with
  | none => none
  | some (asgn2, ch) =>
    match recompute_centroids points asgn2 k with
    | none => none
    | some cents2 =>
      match reseedGo points cents2 k 0 st.2.2 ch with
      | none => none
      | some (cents3, r3, ch3) => some ((asgn2, cents3, r3), ch3)

/-- The `for _ in range(max_iter)` loop of `kmeans`: run cycles until
the fuel is exhausted or a cycle reports no change. -/
def kmeansLoop (points : List Point) (k : Nat) :
    Nat → KState → Option KState
  | 0, st => some st
  | fuel + 1, st =>
    match kmeansStep points k st with
    | none => none
    | some (st2, ch) => if ch then kmeansLoop points k fuel st2 else some st2

/-- `kmeans(points, k, max_iter)`: initialise centroids, start from the
all-zero assignment, and iterate. -/
def kmeans (points : List Point) (k : Nat) (r : RNG) (max_iter : Nat) :
    Option KState :=
  match init_centroids points k r with
  | none => none
  | some (cents, r2) =>
    kmeansLoop points k max_iter
      (List.replicate points.length 0, cents.map some, r2)

/-- Ghost-instrumented copy of `kmeansLoop` that also counts the number
of assign/recompute cycles actually executed. -/
def kmeansLoopCount (points : List Point) (k : Nat) :
    Nat → KState → Option (KState × Nat)
  | 0, st => some (st, 0)
  | fuel + 1, st =>
    match kmeansStep points k st with
    | none => none
    | some (st2, ch) =>
      if ch then
        match kmeansLoopCount points k fuel st2 with
        | none => none
        | some (st3, m) => some (st3, m + 1)
      else some (st2, 1)

/-- Run exactly `j` unconditional cycles from a state, reporting the
last cycle's `changed` flag (`true` by convention for `j = 0`). -/
def stepsFrom (points : List Point) (k : Nat) (st : KState) :
    Nat → Option (KState × Bool)
  | 0 => some (st, true)
  | j + 1 =>
    match stepsFrom points k st j with
    | none => none
    | some (st2, _) => kmeansStep points k st2

/-- One input row of `student_runs.csv` as read by `main`; the two
coordinate fields are the only numeric inputs, kept as exact rationals. -/
structure Record where
  day : String
  time_window_start : String
  time_window_end : String
  university_id : String
  run_id : String
  student_id : String
  home_lat : ℚ
  home_lng : ℚ

/-- The grouping key `(r["day"], r["time_window_start"],
r["time_window_end"], r["university_id"])`. -/
abbrev GroupKey : Type := String × String × String × String

/-- Key of one record. -/
def recordKey (r : Record) : GroupKey :=
  (r.day, r.time_window_start, r.time_window_end, r.university_id)

/-- The group keys in first-occurrence order, as iterating the
insertion-ordered `defaultdict` produces them. -/
def groupKeys (rows : List Record) : List GroupKey :=
  rows.foldl (fun acc r => if recordKey r ∈ acc then acc else acc ++ [recordKey r]) []

/-- Zero-padded two-digit rendering `f"{n:02d}"` of a cluster index. -/
def pad2 (n : Nat) : String :=
  if n < 10 then "0" ++ toString n else toString n

/-- The cluster identifier `f"{day}_{start}-{end}_{uni}_C{idx:02d}"`
built from a group key and a 1-based cluster index. -/
def clusterIdOf (key : GroupKey) (idx1 : Nat) : String :=
  key.1 ++ "_" ++ key.2.1 ++ "-" ++ key.2.2.1 ++ "_" ++ key.2.2.2 ++ "_C" ++ pad2 idx1

/-- One row of `student_clusters.csv`: the original record plus its
`cluster_id`. -/
structure OutRow where
  record : Record
  cluster_id : String

/-- One row of `cluster_summary.csv`.  The centroid is kept as the raw
(possibly undefined) pair; the source renders it with six decimal
places, a formatting step outside the algorithmic content. -/
structure SummaryRow where
  day : String
  time_window_start : String
  time_window_end : String
  university_id : String
  cluster_id : String
  cluster_size : Nat
  centroid : Option Point

/-- `for a in assignments: cluster_counts[a] += 1`. -/
def bumpCounts (counts : List Nat) (asgn : List Nat) : Option (List Nat) :=
  match asgn with
  | [] => some counts
  | a :: rest =>
    match counts.get? a with
    | none => none
    | some c => bumpCounts (counts.set a (c + 1)) rest

/-- `for idx, (cx, cy) in enumerate(centroids)`: build the summary rows
of one group, reading `cluster_counts[idx]`. -/
def buildSummaries (key : GroupKey) (counts : List Nat)
    (cents : List (Option Point)) (idx : Nat) : Option (List SummaryRow) :=
  match cents with
  | [] => some []
  | c :: rest =>
    match counts.get? idx with
    | none => none
    | some n =>
      match buildSummaries key counts rest (idx + 1) with
      | none => none
      | some rs =>
        some ({ day := key.1, time_window_start := key.2.1,
                time_window_end := key.2.2.1, university_id := key.2.2.2,
                cluster_id := clusterIdOf key (idx + 1), cluster_size := n,
                centroid := c } :: rs)

/-- `for r, a in zip(g, assignments)`: the per-record output rows of one
group. -/
def buildOutRows (g : List Record) (key : GroupKey) (asgn : List Nat) :
    List OutRow :=
  (g.zip asgn).map (fun pa => { record := pa.1, cluster_id := clusterIdOf key (pa.2 + 1) })

/-- The per-group body of `main`'s loop, run over the keys in
first-occurrence order, threading the single random source from group
to group exactly as the global `random` state is. -/
def processGroups (rows : List Record) (tc : ℤ) (mi : Nat) :
    List GroupKey → RNG → Option (List OutRow × List SummaryRow × RNG)
  | [], r => some ([], [], r)
  | key :: ks, r =>
    let g := rows.filter (fun x => decide (recordKey x = key))
    let k := (choose_k (g.length : ℤ) tc).toNat
    let points := g.map (fun x => (x.home_lat, x.home_lng))
    match kmeans points k r mi with
    | none => none
    | some (asgn, cents, r2) =>
      match bumpCounts (List.replicate k 0) asgn with
      | none => none
      | some counts =>
        match buildSummaries key counts cents 0 with
        | none => none
        | some sums =>
          match processGroups rows tc mi ks r2 with
          | none => none
          | some (outs, srows, r3) =>
            some (buildOutRows g key asgn ++ outs, sums ++ srows, r3)

/-- Chain an `Ordering` with the comparison of the next sort-key field. -/
def ordThen (o : Ordering) (next : Bool) : Bool :=
  match o with
  | Ordering.lt => true
  | Ordering.gt => false
  | Ordering.eq => next

/-- The sort key `(day, time_window_start, university_id, cluster_id,
student_id)` of the per-record output. -/
def outRowLe (a b : OutRow) : Bool :=
  ordThen (compare a.record.day b.record.day)
    (ordThen (compare a.record.time_window_start b.record.time_window_start)
      (ordThen (compare a.record.university_id b.record.university_id)
        (ordThen (compare a.cluster_id b.cluster_id)
          (ordThen (compare a.record.student_id b.record.student_id) true))))

/-- The sort key `(day, time_window_start, university_id, cluster_id)`
of the summary output. -/
def summaryLe (a b : SummaryRow) : Bool :=
  ordThen (compare a.day b.day)
    (ordThen (compare a.time_window_start b.time_window_start)
      (ordThen (compare a.university_id b.university_id)
        (ordThen (compare a.cluster_id b.cluster_id) true)))

/-- `main` without its file I/O shell: group the rows, cluster every
group, build both row sets and sort them.  An empty input raises
(`ValueError`), embedded as `none`. -/
def mainProcess (rows : List Record) (tc : ℤ) (mi : Nat) (r : RNG) :
    Option (List OutRow × List SummaryRow) :=
  match rows with
  | [] => none
  | _ :: _ =>
    match processGroups rows tc mi (groupKeys rows) r with
    | none => none
    | some (outs, sums, _) =>
      some (outs.mergeSort outRowLe, sums.mergeSort summaryLe)

/-! ## Specification-side helper definitions -/

/-- Number of pairs in `pcs` carrying cluster index `i`. -/
def countIdx (i : Nat) (pcs : List (Point × Nat)) : Nat :=
  (pcs.filter (fun pc => pc.2 == i)).length

/-- Sum of the first coordinates of the points in `pcs` carrying
cluster index `i`. -/
def sumFst (i : Nat) (pcs : List (Point × Nat)) : ℚ :=
  ((pcs.filter (fun pc => pc.2 == i)).map (fun pc => pc.1.1)).sum

/-- Sum of the second coordinates of the points in `pcs` carrying
cluster index `i`. -/
def sumSnd (i : Nat) (pcs : List (Point × Nat)) : ℚ :=
  ((pcs.filter (fun pc => pc.2 == i)).map (fun pc => pc.1.2)).sum

/-- The arithmetic mean of a point list, coordinatewise. -/
def meanPoint (points : List Point) : Point :=
  ((points.map Prod.fst).sum / (points.length : ℚ),
   (points.map Prod.snd).sum / (points.length : ℚ))

/-- The invariant of the `kmeans` loop state: assignments are one per
point and all below `k`; there are exactly `k` centroids, all defined. -/
def KInv (points : List Point) (k : Nat) (st : KState) : Prop :=
  st.1.length = points.length ∧ (∀ a ∈ st.1, a < k) ∧
    st.2.1.length = k ∧ ∀ j, j < k → ∃ q, st.2.1.get? j = some (some q)

/-- A deterministic random stream that always draws the first element. -/
def zeroRNG : RNG := ⟨fun _ => 0⟩

instance : Inhabited RNG := ⟨zeroRNG⟩

/-- Two coincident points: the degenerate input for the duplicate-point
counterexamples. -/
def dupPoints : List Point := [((0 : ℚ), (0 : ℚ)), ((0 : ℚ), (0 : ℚ))]

/-! ## Properties of `choose_k` -/

/-- C2: `choose_k` returns 0 for `n ≤ 0`, otherwise the ceiling of
`n / max(1, target_capacity)` clamped to `max 1 (min K n)`; for
`n ≥ 1` and `target_capacity ≥ 1` the result lies in `[1, n]`. -/
theorem choose_k_claim (n tc : ℤ) :
    (n ≤ 0 → choose_k n tc = 0) ∧
    (0 < n → choose_k n tc = max 1 (min ⌈(n : ℚ) / ((max 1 tc : ℤ) : ℚ)⌉ n)) ∧
    (1 ≤ n → 1 ≤ tc → 1 ≤ choose_k n tc ∧ choose_k n tc ≤ n) := by
  refine ⟨fun h => by simp [choose_k, h], fun h => by simp [choose_k, not_le.mpr h], ?_⟩
  intro h1 _h2
  rw [choose_k, if_neg (by omega)]
  generalize ⌈(n : ℚ) / ((max 1 tc : ℤ) : ℚ)⌉ = K
  omega

/-- Concrete instance of `choose_k_claim` at `n = 5`, `tc = 2`. -/
theorem choose_k_claim_witness :
    ((5 : ℤ) ≤ 0 → choose_k 5 2 = 0) ∧
    (1 ≤ choose_k 5 2 ∧ choose_k 5 2 ≤ 5) :=
  ⟨(choose_k_claim 5 2).1, (choose_k_claim 5 2).2.2 (by decide) (by decide)⟩

/-! ## Helper lemmas -/

lemma get?_replicate_of_lt {α : Type} {a : α} {n i : Nat} (h : i < n) :
    (List.replicate n a).get? i = some a := by
  rw [List.get?_eq_get (by simpa using h)]
  simp [List.get_replicate]

lemma euclidean2_nonneg (a b : Point) : 0 ≤ euclidean2 a b := by
  unfold euclidean2
  positivity

lemma euclidean2_self (a : Point) : euclidean2 a a = 0 := by
  simp [euclidean2]

lemma euclidean2_eq_zero {a b : Point} (h : euclidean2 a b = 0) : a = b := by
  unfold euclidean2 at h
  have h1 : (a.1 - b.1) ^ 2 = 0 ∧ (a.2 - b.2) ^ 2 = 0 := by
    constructor <;> nlinarith [sq_nonneg (a.1 - b.1), sq_nonneg (a.2 - b.2)]
  have h2 : a.1 = b.1 := by nlinarith [h1.1]
  have h3 : a.2 = b.2 := by nlinarith [h1.2]
  exact Prod.ext h2 h3

/-- `random.sample` succeeds and returns `k` elements of the list when
at most the list's length is requested. -/
lemma sample_some : ∀ (k : Nat) (l : List Point) (r : RNG), k ≤ l.length →
    ∃ ps r2, sample l k r = some (ps, r2) ∧ ps.length = k ∧ ∀ p ∈ ps, p ∈ l := by
  intro k
  induction k with
  | zero => intro l r _; exact ⟨[], r, rfl, rfl, by simp⟩
  | succ k ih =>
    intro l r hk
    have hl : l.length ≠ 0 := by omega
    have hi : r.stream 0 % l.length < l.length := Nat.mod_lt _ (by omega)
    have hp' : l.get? (r.stream 0 % l.length) = some (l.get ⟨_, hi⟩) :=
      List.get?_eq_get hi
    have hlen : (l.eraseIdx (r.stream 0 % l.length)).length = l.length - 1 := by
      rw [List.length_eraseIdx]
      simp [hi]
    obtain ⟨ps, r2, hrec, hpslen, hmem⟩ := ih (l.eraseIdx (r.stream 0 % l.length)) r.next (by omega)
    refine ⟨l.get ⟨_, hi⟩ :: ps, r2, ?_, by simp [hpslen], ?_⟩
    · rw [sample, RNG.draw, if_neg hl]
      simp only [hp', hrec]
    · intro x hx
      rcases List.mem_cons.mp hx with h | h
      · subst h; exact List.get_mem l _ _
      · exact List.eraseIdx_subset _ _ (hmem x h)

/-- `init_centroids` succeeds with exactly `k` centroids whenever
`k ≤ |points|`. -/
lemma init_centroids_some (points : List Point) (k : Nat) (r : RNG)
    (hk : k ≤ points.length) :
    ∃ cs r2, init_centroids points k r = some (cs, r2) ∧ cs.length = k ∧
      ∀ p ∈ cs, p ∈ points := by
  rw [init_centroids]
  by_cases h : points.length ≤ k
  · exact ⟨points, r, by rw [if_pos h], by omega, fun p hp => hp⟩
  · obtain ⟨ps, r2, h1, h2, h3⟩ := sample_some k points r hk
    exact ⟨ps, r2, by rw [if_neg h, h1], h2, h3⟩

/-- The scan `for c in range(1, k)` returns the first index of minimum
squared distance among all centroid indices below `k`, assuming every
centroid below `k` is present and defined. -/
lemma bestClusterGo_spec (p : Point) (cents : List (Option Point)) (k : Nat)
    (q : Nat → Point)
    (hq : ∀ j, j < k → cents.get? j = some (some (q j))) :
    ∀ n c bc, k - c ≤ n → bc < k → bc < c →
    (∀ j, j < c → euclidean2 p (q bc) ≤ euclidean2 p (q j)) →
    (∀ j, j < bc → euclidean2 p (q bc) < euclidean2 p (q j)) →
    ∃ b, bestClusterGo p cents k c bc (euclidean2 p (q bc)) = some b ∧ b < k ∧
      (∀ j, j < k → euclidean2 p (q b) ≤ euclidean2 p (q j)) ∧
      (∀ j, j < b → euclidean2 p (q b) < euclidean2 p (q j)) := by
  intro n
  induction n with
  | zero =>
    intro c bc hn hbc hbcc hle hlt
    have hkc : k ≤ c := by omega
    rw [bestClusterGo, dif_pos hkc]
    exact ⟨bc, rfl, hbc, fun j hj => hle j (by omega), hlt⟩
  | succ n ih =>
    intro c bc hn hbc hbcc hle hlt
    by_cases hkc : k ≤ c
    · rw [bestClusterGo, dif_pos hkc]
      exact ⟨bc, rfl, hbc, fun j hj => hle j (by omega), hlt⟩
    · rw [bestClusterGo, dif_neg hkc, hq c (by omega)]
      simp only
      by_cases hd : euclidean2 p (q c) < euclidean2 p (q bc)
      · rw [if_pos hd]
        refine ih (c + 1) c (by omega) (by omega) (by omega) ?_ ?_
        · intro j hj
          rcases Nat.lt_succ_iff_lt_or_eq.mp hj with h | h
          · exact le_of_lt (lt_of_lt_of_le hd (hle j h))
          · subst h; exact le_refl _
        · intro j hj
          exact lt_of_lt_of_le hd (hle j hj)
      · rw [if_neg hd]
        refine ih (c + 1) bc (by omega) hbc (by omega) ?_ hlt
        intro j hj
        rcases Nat.lt_succ_iff_lt_or_eq.mp hj with h | h
        · exact hle j h
        · subst h; exact le_of_not_lt hd

/-- The assign step for one point returns the first index achieving the
minimum squared distance over all `k` centroids. -/
lemma bestCluster_spec (p : Point) (cents : List (Option Point)) (k : Nat)
    (q : Nat → Point)
    (hq : ∀ j, j < k → cents.get? j = some (some (q j))) (hk : 0 < k) :
    ∃ b, bestCluster p cents k = some b ∧ b < k ∧
      (∀ j, j < k → euclidean2 p (q b) ≤ euclidean2 p (q j)) ∧
      (∀ j, j < b → euclidean2 p (q b) < euclidean2 p (q j)) := by
  rw [bestCluster, hq 0 hk]
  simp only
  exact bestClusterGo_spec p cents k q hq k 1 0 (by omega) hk (by omega)
    (fun j hj => by
      have : j = 0 := by omega
      subst this; exact le_refl _)
    (fun j hj => absurd hj (by omega))

/-- The assign step over all points: it succeeds, keeps the list
length, keeps every index below `k`, reports `changed = false` exactly
when nothing moved, and assigns every point its first-minimum centroid. -/
lemma assignPoints_spec (cents : List (Option Point)) (k : Nat) (q : Nat → Point)
    (hq : ∀ j, j < k → cents.get? j = some (some (q j))) (hk : 0 < k) :
    ∀ (points : List Point) (asgn : List Nat), asgn.length = points.length →
    ∃ bs ch, assignPoints points cents k asgn = some (bs, ch) ∧
      bs.length = points.length ∧
      (∀ a ∈ bs, a < k) ∧
      (ch = false ↔ bs = asgn) ∧
      ∀ i p0, points.get? i = some p0 → ∃ b, bs.get? i = some b ∧ b < k ∧
        (∀ j, j < k → euclidean2 p0 (q b) ≤ euclidean2 p0 (q j)) ∧
        (∀ j, j < b → euclidean2 p0 (q b) < euclidean2 p0 (q j)) := by
  intro points
  induction points with
  | nil =>
    intro asgn h
    have : asgn = [] := List.length_eq_zero.mp h
    subst this
    exact ⟨[], false, rfl, rfl, by simp, by simp, fun i p0 hi => by simp at hi⟩
  | cons p ps ih =>
    intro asgn h
    match asgn with
    | [] => simp at h
    | a :: rest =>
      obtain ⟨b, hb, hbk, hmin, htie⟩ := bestCluster_spec p cents k q hq hk
      obtain ⟨bs, ch, hrec, hlen, hmem, hch, hpt⟩ := ih rest (by simpa using h)
      refine ⟨b :: bs, ((a != b) || ch), ?_, by simp [hlen], ?_, ?_, ?_⟩
      · rw [assignPoints, hb, hrec]
      · intro x hx
        rcases List.mem_cons.mp hx with hx | hx
        · subst hx; exact hbk
        · exact hmem x hx
      · constructor
        · intro hor
          have h1 : (a != b) = false := by
            cases hab : (a != b) <;> simp [hab] at hor ⊢
          have h2 : ch = false := by
            cases hc : ch <;> simp [hc] at hor ⊢
          have hab : a = b := by simpa using h1
          rw [hch.mp h2, hab]
        · intro he
          have h1 : b = a ∧ bs = rest := by
            have := List.cons_eq_cons.mp he
            exact this
          rw [h1.1, hch.mpr h1.2]
          simp
      · intro i p0 hi
        match i with
        | 0 =>
          have : p = p0 := by simpa using hi
          subst this
          exact ⟨b, by simp, hbk, hmin, htie⟩
        | i + 1 =>
          have hi' : ps.get? i = some p0 := by simpa using hi
          obtain ⟨b0, hb0, h1, h2, h3⟩ := hpt i p0 hi'
          exact ⟨b0, by simpa using hb0, h1, h2, h3⟩

lemma getD_set_eq_of_lt {α : Type} (l : List α) (n : Nat) (a d : α)
    (h : n < l.length) : (l.set n a).getD n d = a := by
  rw [List.getD_eq_get?, List.get?_set_eq, List.get?_eq_get h]
  rfl

lemma getD_set_ne_of_ne {α : Type} (l : List α) {m n : Nat} (a d : α)
    (h : m ≠ n) : (l.set m a).getD n d = l.getD n d := by
  rw [List.getD_eq_get?, List.get?_set_ne _ _ h, List.getD_eq_get?]

/-- The accumulation loop succeeds when every index is in bounds, and
computes per-index counts and coordinate sums. -/
lemma accumulate_spec :
    ∀ (pcs : List (Point × Nat)) (sums : List Point) (counts : List Nat),
    (∀ pc ∈ pcs, pc.2 < counts.length) → sums.length = counts.length →
    ∃ s2 c2, accumulate sums counts pcs = some (s2, c2) ∧
      s2.length = sums.length ∧ c2.length = counts.length ∧
      ∀ i, i < counts.length →
        c2.get? i = some (counts.getD i 0 + countIdx i pcs) ∧
        s2.get? i = some ((sums.getD i (0, 0)).1 + sumFst i pcs,
                          (sums.getD i (0, 0)).2 + sumSnd i pcs) := by
  intro pcs
  induction pcs with
  | nil =>
    intro sums counts _ hlen
    refine ⟨sums, counts, rfl, rfl, rfl, ?_⟩
    intro i hi
    have hc : counts.get? i = some (counts.get ⟨i, hi⟩) := List.get?_eq_get hi
    have hs : sums.get? i = some (sums.get ⟨i, by omega⟩) := List.get?_eq_get (by omega)
    constructor
    · rw [hc, List.getD_eq_get?, hc]
      simp [countIdx]
    · rw [hs, List.getD_eq_get?, hs]
      simp [sumFst, sumSnd]
  | cons pc rest ih =>
    intro sums counts hmem hlen
    obtain ⟨p, c⟩ := pc
    have hc : c < counts.length := hmem (p, c) (List.mem_cons_self _ _)
    have hcs : c < sums.length := by omega
    have hcnt : counts.get? c = some (counts.get ⟨c, hc⟩) := List.get?_eq_get hc
    have hsum : sums.get? c = some (sums.get ⟨c, hcs⟩) := List.get?_eq_get hcs
    obtain ⟨s2, c2, hrec, hl1, hl2, hpt⟩ :=
      ih (sums.set c ((sums.get ⟨c, hcs⟩).1 + p.1, (sums.get ⟨c, hcs⟩).2 + p.2))
        (counts.set c (counts.get ⟨c, hc⟩ + 1))
        (fun pc2 h2 => by
          rw [List.length_set]
          exact hmem pc2 (List.mem_cons_of_mem _ h2))
        (by rw [List.length_set, List.length_set]; omega)
    refine ⟨s2, c2, ?_, by rwa [List.length_set] at hl1, by rwa [List.length_set] at hl2, ?_⟩
    · rw [accumulate, hcnt, hsum]
      exact hrec
    · intro i hi
      have hi2 : i < (counts.set c (counts.get ⟨c, hc⟩ + 1)).length := by
        rw [List.length_set]; exact hi
      obtain ⟨hpc, hps⟩ := hpt i hi2
      have hgc : counts.getD c 0 = counts.get ⟨c, hc⟩ := by
        rw [List.getD_eq_get?, hcnt]
        rfl
      have hgs : sums.getD c (0, 0) = sums.get ⟨c, hcs⟩ := by
        rw [List.getD_eq_get?, hsum]
        rfl
      by_cases hic : c = i
      · subst hic
        have e1 : countIdx c ((p, c) :: rest) = countIdx c rest + 1 := by
          simp [countIdx]
        have e2 : sumFst c ((p, c) :: rest) = p.1 + sumFst c rest := by
          simp [sumFst]
        have e3 : sumSnd c ((p, c) :: rest) = p.2 + sumSnd c rest := by
          simp [sumSnd]
        rw [hpc, hps, getD_set_eq_of_lt _ _ _ _ hc, getD_set_eq_of_lt _ _ _ _ hcs,
          e1, e2, e3, hgc, hgs]
        constructor
        · simp only [Option.some.injEq]
          omega
        · simp only [Option.some.injEq, Prod.mk.injEq]
          constructor <;> ring
      · have e1 : countIdx i ((p, c) :: rest) = countIdx i rest := by
          simp [countIdx, hic]
        have e2 : sumFst i ((p, c) :: rest) = sumFst i rest := by
          simp [sumFst, hic]
        have e3 : sumSnd i ((p, c) :: rest) = sumSnd i rest := by
          simp [sumSnd, hic]
        rw [hpc, hps, getD_set_ne_of_ne _ _ _ hic, getD_set_ne_of_ne _ _ _ hic,
          e1, e2, e3]
        exact ⟨rfl, rfl⟩

/-- `recompute_centroids` succeeds when all assignments are in range,
returning `k` centroids: the mean of each nonempty cluster, the
undefined sentinel for each empty one. -/
lemma recompute_centroids_spec (points : List Point) (asgn : List Nat) (k : Nat)
    (h : ∀ a ∈ asgn, a < k) :
    ∃ cents, recompute_centroids points asgn k = some cents ∧ cents.length = k ∧
      ∀ i, i < k → cents.get? i = some (
        if countIdx i (points.zip asgn) = 0 then none
        else some (sumFst i (points.zip asgn) / (countIdx i (points.zip asgn) : ℚ),
                   sumSnd i (points.zip asgn) / (countIdx i (points.zip asgn) : ℚ))) := by
  obtain ⟨s2, c2, hrec, hl1, hl2, hpt⟩ :=
    accumulate_spec (points.zip asgn) (List.replicate k ((0 : ℚ), (0 : ℚ)))
      (List.replicate k 0)
      (fun pc h2 => by
        rw [List.length_replicate]
        exact h pc.2 (List.of_mem_zip h2).2)
      (by simp)
  rw [List.length_replicate] at hl2
  rw [List.length_replicate] at hl1
  refine ⟨_, by rw [recompute_centroids, hrec], by simp, ?_⟩
  intro i hi
  rw [List.get?_map, List.get?_range hi]
  simp only [Option.map_some', Option.some.injEq]
  have hci : c2.getD i 0 = countIdx i (points.zip asgn) := by
    rw [List.getD_eq_get?, (hpt i (by simpa using hi)).1]
    simp [List.getD_eq_get?, get?_replicate_of_lt hi]
  have hsi : s2.getD i (0, 0) = (sumFst i (points.zip asgn), sumSnd i (points.zip asgn)) := by
    have := (hpt i (by simpa using hi)).2
    rw [List.getD_eq_get?, this]
    simp [List.getD_eq_get?, get?_replicate_of_lt hi]
  rw [hci, hsi]

/-- The re-seed loop succeeds on a non-empty point list: afterwards
every centroid below `k` is defined (provided those before `c` already
were), every entry is either untouched or a point of the group, and
every undefined entry from position `c` on is replaced by a point of
the group. -/
lemma reseedGo_spec (points : List Point) (hp : points ≠ []) (k : Nat) :
    ∀ n c (cents : List (Option Point)) (r : RNG) (ch : Bool),
    k - c ≤ n → cents.length = k →
    (∀ j, j < c → ∃ q, cents.get? j = some (some q)) →
    ∃ cents2 r2 ch2, reseedGo points cents k c r ch = some (cents2, r2, ch2) ∧
      cents2.length = k ∧
      (∀ j, j < k → ∃ q, cents2.get? j = some (some q)) ∧
      (∀ j, cents2.get? j = cents.get? j ∨
        ∃ q ∈ points, cents2.get? j = some (some q)) ∧
      (∀ j, cents.get? j = some none → j < k → c ≤ j →
        ∃ q ∈ points, cents2.get? j = some (some q)) := by
  intro n
  induction n with
  | zero =>
    intro c cents r ch hn hlen hpre
    have hkc : k ≤ c := by omega
    rw [reseedGo, dif_pos hkc]
    exact ⟨cents, r, ch, rfl, hlen, fun j hj => hpre j (by omega),
      fun j => Or.inl rfl, fun j _ hj hcj => by omega⟩
  | succ n ih =>
    intro c cents r ch hn hlen hpre
    by_cases hkc : k ≤ c
    · rw [reseedGo, dif_pos hkc]
      exact ⟨cents, r, ch, rfl, hlen, fun j hj => hpre j (by omega),
        fun j => Or.inl rfl, fun j _ hj hcj => by omega⟩
    · have hck : c < k := by omega
      have hcl : c < cents.length := by omega
      have hgc : cents.get? c = some (cents.get ⟨c, hcl⟩) := List.get?_eq_get hcl
      rw [reseedGo, dif_neg hkc]
      cases hoc : cents.get ⟨c, hcl⟩ with
      | some q =>
        rw [hgc, hoc]
        obtain ⟨cents2, r2, ch2, hrec, hl2, hall, hpt, hre⟩ :=
          ih (c + 1) cents r ch (by omega) hlen
            (fun j hj => by
              rcases Nat.lt_succ_iff_lt_or_eq.mp hj with h | h
              · exact hpre j h
              · subst h; exact ⟨q, by rw [hgc, hoc]⟩)
        refine ⟨cents2, r2, ch2, hrec, hl2, hall, hpt, ?_⟩
        intro j hnan hj hcj
        rcases Nat.lt_or_ge c j with h | h
        · exact hre j hnan hj (by omega)
        · have : c = j := by omega
          subst this
          rw [hgc, hoc] at hnan
          simp at hnan
      | none =>
        rw [hgc, hoc]
        have hlp : points.length ≠ 0 := by
          intro h0
          exact hp (List.length_eq_zero.mp h0)
        have hi : r.stream 0 % points.length < points.length :=
          Nat.mod_lt _ (by omega)
        have hgp : points.get? (r.stream 0 % points.length) =
            some (points.get ⟨_, hi⟩) := List.get?_eq_get hi
        rw [RNG.draw, if_neg hlp]
        simp only [hgp]
        obtain ⟨cents2, r2, ch2, hrec, hl2, hall, hpt, hre⟩ :=
          ih (c + 1) (cents.set c (some (points.get ⟨_, hi⟩))) r.next true
            (by omega) (by rw [List.length_set]; exact hlen)
            (fun j hj => by
              rcases Nat.lt_succ_iff_lt_or_eq.mp hj with h | h
              · rw [List.get?_set_ne _ _ (by omega)]
                exact hpre j h
              · subst h
                rw [List.get?_set_eq, hgc]
                exact ⟨points.get ⟨_, hi⟩, rfl⟩)
        refine ⟨cents2, r2, ch2, hrec, hl2, hall, ?_, ?_⟩
        · intro j
          by_cases hjc : c = j
          · subst hjc
            rcases hpt c with h | h
            · rw [List.get?_set_eq, hgc] at h
              exact Or.inr ⟨points.get ⟨_, hi⟩, List.get_mem _ _ _, h⟩
            · exact Or.inr h
          · rcases hpt j with h | h
            · rw [List.get?_set_ne _ _ hjc] at h
              exact Or.inl h
            · exact Or.inr h
        · intro j hnan hj hcj
          by_cases hjc : c = j
          · subst hjc
            rcases hpt c with h | h
            · rw [List.get?_set_eq, hgc] at h
              exact ⟨points.get ⟨_, hi⟩, List.get_mem _ _ _, h⟩
            · exact h
          · rw [← List.get?_set_ne (some (points.get ⟨_, hi⟩)) (l := cents) hjc] at hnan
            exact hre j hnan hj (by omega)

/-- If the re-seed loop reports `changed = false` then it replaced
nothing: the centroids and random source are untouched and the incoming
flag was already `false`. -/
lemma reseedGo_flag (points : List Point) (k : Nat) :
    ∀ n c (cents : List (Option Point)) (r : RNG) (ch : Bool) cents2 r2 ch2,
    k - c ≤ n →
    reseedGo points cents k c r ch = some (cents2, r2, ch2) →
    ch2 = false → cents2 = cents ∧ r2 = r ∧ ch = false := by
  intro n
  induction n with
  | zero =>
    intro c cents r ch cents2 r2 ch2 hn hrun hch
    have hkc : k ≤ c := by omega
    rw [reseedGo, dif_pos hkc] at hrun
    simp only [Option.some.injEq, Prod.mk.injEq] at hrun
    exact ⟨hrun.1.symm, hrun.2.1.symm, hrun.2.2.trans hch⟩
  | succ n ih =>
    intro c cents r ch cents2 r2 ch2 hn hrun hch
    by_cases hkc : k ≤ c
    · rw [reseedGo, dif_pos hkc] at hrun
      simp only [Option.some.injEq, Prod.mk.injEq] at hrun
      exact ⟨hrun.1.symm, hrun.2.1.symm, hrun.2.2.trans hch⟩
    · rw [reseedGo, dif_neg hkc] at hrun
      cases hoc : cents.get? c with
      | none => rw [hoc] at hrun; exact absurd hrun (by simp)
      | some oc =>
        rw [hoc] at hrun
        cases oc with
        | some q =>
          exact ih (c + 1) cents r ch cents2 r2 ch2 (by omega) hrun hch
        | none =>
          by_cases h0 : points.length = 0
          · have hpe : points = [] := List.length_eq_zero.mp h0
            subst hpe
            simp [RNG.draw] at hrun
          · simp only [RNG.draw, if_neg h0] at hrun
            cases hgp : points.get? (r.stream 0 % points.length) with
            | none =>
              rw [hgp] at hrun
              simp at hrun
            | some p =>
              rw [hgp] at hrun
              have := ih (c + 1) (cents.set c (some p)) r.next true
                cents2 r2 ch2 (by omega) hrun hch
              exact absurd this.2.2 (by simp)

/-- One loop cycle succeeds from any state satisfying the invariant,
and re-establishes the invariant. -/
lemma kmeansStep_spec (points : List Point) (k : Nat) (hp : points ≠ [])
    (hk : 0 < k) (st : KState) (hinv : KInv points k st) :
    ∃ st2 ch, kmeansStep points k st = some (st2, ch) ∧ KInv points k st2 := by
  obtain ⟨h1, h2, h3, h4⟩ := hinv
  have hq : ∀ j, j < k →
      st.2.1.get? j = some (some (((st.2.1.get? j).getD none).getD ((0 : ℚ), (0 : ℚ)))) := by
    intro j hj
    obtain ⟨q, hq⟩ := h4 j hj
    rw [hq]
    rfl
  obtain ⟨bs, ch, hassign, hlen, hmem, _, _⟩ :=
    assignPoints_spec st.2.1 k _ hq hk points st.1 h1
  obtain ⟨cents2, hrecomp, hl2, _⟩ := recompute_centroids_spec points bs k hmem
  obtain ⟨cents3, r3, ch3, hreseed, hl3, hall3, _, _⟩ :=
    reseedGo_spec points hp k k 0 cents2 st.2.2 ch (by omega) hl2
      (fun j hj => by omega)
  refine ⟨(bs, cents3, r3), ch3, ?_, hlen, hmem, hl3, hall3⟩
  simp only [kmeansStep, hassign, hrecomp, hreseed]

/-- The iteration loop succeeds from any invariant state, for any fuel. -/
lemma kmeansLoop_spec (points : List Point) (k : Nat) (hp : points ≠ [])
    (hk : 0 < k) :
    ∀ (fuel : Nat) (st : KState), KInv points k st →
    ∃ st2, kmeansLoop points k fuel st = some st2 ∧ KInv points k st2 := by
  intro fuel
  induction fuel with
  | zero => intro st hinv; exact ⟨st, rfl, hinv⟩
  | succ fuel ih =>
    intro st hinv
    obtain ⟨st2, ch, hstep, hinv2⟩ := kmeansStep_spec points k hp hk st hinv
    cases ch with
    | true =>
      obtain ⟨st3, hloop, hinv3⟩ := ih st2 hinv2
      exact ⟨st3, by rw [kmeansLoop, hstep]; simpa using hloop, hinv3⟩
    | false =>
      exact ⟨st2, by rw [kmeansLoop, hstep]; simp, hinv2⟩

/-- Master success lemma: under the intended precondition
(non-empty points, `1 ≤ k ≤ |points|`), `kmeans` succeeds for every
fuel and random state, with one assignment per point, all assignments
below `k`, and `k` defined centroids. -/
lemma kmeans_spec (points : List Point) (k : Nat) (r : RNG) (mi : Nat)
    (hp : points ≠ []) (hk1 : 1 ≤ k) (hk2 : k ≤ points.length) :
    ∃ asgn cents r2, kmeans points k r mi = some (asgn, cents, r2) ∧
      asgn.length = points.length ∧ (∀ a ∈ asgn, a < k) ∧
      cents.length = k ∧ (∀ j, j < k → ∃ q, cents.get? j = some (some q)) := by
  obtain ⟨cs, r2, hinit, hcl, _⟩ := init_centroids_some points k r hk2
  have hinv : KInv points k (List.replicate points.length 0, cs.map some, r2) := by
    refine ⟨by simp, ?_, by simp [hcl], ?_⟩
    · intro a ha
      have := (List.eq_of_mem_replicate ha)
      omega
    · intro j hj
      have hjl : j < cs.length := by omega
      refine ⟨cs.get ⟨j, hjl⟩, ?_⟩
      rw [List.get?_map, List.get?_eq_get hjl]
      rfl
  obtain ⟨st2, hloop, hinv2⟩ :=
    kmeansLoop_spec points k hp (by omega) mi _ hinv
  obtain ⟨i1, i2, i3, i4⟩ := hinv2
  refine ⟨st2.1, st2.2.1, st2.2.2, ?_, i1, i2, i3, i4⟩
  simp only [kmeans, hinit]
  simpa using hloop

lemma sum_count_eq_length (l : List Nat) (k : Nat) (h : ∀ a ∈ l, a < k) :
    ∑ c ∈ Finset.range k, l.count c = l.length := by
  induction l with
  | nil => simp
  | cons a t ih =>
    have ha : a < k := h a (List.mem_cons_self _ _)
    have ht : ∀ x ∈ t, x < k := fun x hx => h x (List.mem_cons_of_mem _ hx)
    simp only [List.count_cons, beq_iff_eq]
    rw [Finset.sum_add_distrib, ih ht, Finset.sum_ite_eq (Finset.range k) a fun _ => 1]
    simp [Finset.mem_range.mpr ha]

/-- C3: under the caller precondition, `kmeans` returns one assignment
per point, every assignment lies in `[0, k)`, and the per-cluster
counts sum to the group size. -/
theorem kmeans_partition_claim (points : List Point) (k : Nat) (r : RNG)
    (mi : Nat) (hp : points ≠ []) (hk1 : 1 ≤ k) (hk2 : k ≤ points.length) :
    ∃ asgn cents r2, kmeans points k r mi = some (asgn, cents, r2) ∧
      asgn.length = points.length ∧ (∀ a ∈ asgn, a < k) ∧
      ∑ c ∈ Finset.range k, asgn.count c = points.length := by
  obtain ⟨asgn, cents, r2, h0, h1, h2, _, _⟩ := kmeans_spec points k r mi hp hk1 hk2
  exact ⟨asgn, cents, r2, h0, h1, h2, by rw [sum_count_eq_length asgn k h2, h1]⟩

/-- Concrete instance of `kmeans_partition_claim`: two points, one
cluster, zero iterations. -/
theorem kmeans_partition_claim_witness :
    ∃ asgn cents r2,
      kmeans [((0 : ℚ), (0 : ℚ)), ((1 : ℚ), (1 : ℚ))] 1 zeroRNG 0 =
        some (asgn, cents, r2) ∧
      asgn.length = [((0 : ℚ), (0 : ℚ)), ((1 : ℚ), (1 : ℚ))].length ∧
      (∀ a ∈ asgn, a < 1) ∧
      ∑ c ∈ Finset.range 1, asgn.count c =
        [((0 : ℚ), (0 : ℚ)), ((1 : ℚ), (1 : ℚ))].length :=
  kmeans_partition_claim _ 1 zeroRNG 0 (by simp) (by omega) (by simp)

/-- C4: the assign step sends every point to a centroid of minimum
squared Euclidean distance, breaking ties by the lowest centroid
index. -/
theorem assign_argmin_claim (points : List Point) (cents : List (Option Point))
    (k : Nat) (q : Nat → Point) (asgn : List Nat)
    (hq : ∀ j, j < k → cents.get? j = some (some (q j))) (hk : 0 < k)
    (hlen : asgn.length = points.length) :
    ∃ bs ch, assignPoints points cents k asgn = some (bs, ch) ∧
      ∀ i p0, points.get? i = some p0 → ∃ b, bs.get? i = some b ∧ b < k ∧
        (∀ j, j < k → euclidean2 p0 (q b) ≤ euclidean2 p0 (q j)) ∧
        (∀ j, j < b → euclidean2 p0 (q b) < euclidean2 p0 (q j)) := by
  obtain ⟨bs, ch, h0, _, _, _, hpt⟩ :=
    assignPoints_spec cents k q hq hk points asgn hlen
  exact ⟨bs, ch, h0, hpt⟩

/-- Concrete instance of `assign_argmin_claim`: one point, two
centroids. -/
theorem assign_argmin_claim_witness :
    ∃ bs ch,
      assignPoints [((1 : ℚ), (1 : ℚ))]
        [some ((0 : ℚ), (0 : ℚ)), some ((3 : ℚ), (4 : ℚ))] 2 [0] =
        some (bs, ch) ∧
      ∀ i p0, [((1 : ℚ), (1 : ℚ))].get? i = some p0 → ∃ b, bs.get? i = some b ∧
        b < 2 ∧
        (∀ j, j < 2 →
          euclidean2 p0 ((fun j => if j = 0 then ((0 : ℚ), (0 : ℚ)) else ((3 : ℚ), (4 : ℚ))) b) ≤
            euclidean2 p0 ((fun j => if j = 0 then ((0 : ℚ), (0 : ℚ)) else ((3 : ℚ), (4 : ℚ))) j)) ∧
        (∀ j, j < b →
          euclidean2 p0 ((fun j => if j = 0 then ((0 : ℚ), (0 : ℚ)) else ((3 : ℚ), (4 : ℚ))) b) <
            euclidean2 p0 ((fun j => if j = 0 then ((0 : ℚ), (0 : ℚ)) else ((3 : ℚ), (4 : ℚ))) j)) :=
  assign_argmin_claim _ _ 2 _ _
    (by
      intro j hj
      match j with
      | 0 => rfl
      | 1 => rfl)
    (by omega) (by simp)

/-- C8: under the caller precondition the centroids returned by
`kmeans` are all defined (no NaN sentinel escapes), and the re-seed
pass replaces every undefined centroid by a point of the group. -/
theorem kmeans_no_nan_claim (points : List Point) (k : Nat) (r : RNG)
    (mi : Nat) (hp : points ≠ []) (hk1 : 1 ≤ k) (hk2 : k ≤ points.length) :
    (∃ asgn cents r2, kmeans points k r mi = some (asgn, cents, r2) ∧
      cents.length = k ∧ ∀ oc ∈ cents, ∃ q, oc = some q) ∧
    (∀ cents0 r0 ch0 cents1 r1 ch1, cents0.length = k →
      reseedGo points cents0 k 0 r0 ch0 = some (cents1, r1, ch1) →
      ∀ j, j < k → cents0.get? j = some none →
      ∃ q ∈ points, cents1.get? j = some (some q)) := by
  constructor
  · obtain ⟨asgn, cents, r2, h0, _, _, h3, h4⟩ :=
      kmeans_spec points k r mi hp hk1 hk2
    refine ⟨asgn, cents, r2, h0, h3, ?_⟩
    intro oc hoc
    obtain ⟨n, hn⟩ := List.mem_iff_get?.mp hoc
    obtain ⟨hlt, _⟩ := List.get?_eq_some.mp hn
    have hnk : n < k := h3 ▸ hlt
    obtain ⟨q, hq⟩ := h4 n hnk
    rw [hn] at hq
    exact ⟨q, by simpa using hq⟩
  · intro cents0 r0 ch0 cents1 r1 ch1 hlen0 hrun j hj hnan
    obtain ⟨cents2, r2, ch2, hrun2, _, _, _, hre⟩ :=
      reseedGo_spec points hp k k 0 cents0 r0 ch0 (by omega) hlen0
        (fun j hj => by omega)
    rw [hrun] at hrun2
    simp only [Option.some.injEq, Prod.mk.injEq] at hrun2
    obtain ⟨he1, _, _⟩ := hrun2
    subst he1
    exact hre j hnan hj (by omega)

/-- Concrete instance of `kmeans_no_nan_claim`: one point, one cluster,
one iteration. -/
theorem kmeans_no_nan_claim_witness :
    (∃ asgn cents r2,
      kmeans [((2 : ℚ), (3 : ℚ))] 1 zeroRNG 1 = some (asgn, cents, r2) ∧
      cents.length = 1 ∧ ∀ oc ∈ cents, ∃ q, oc = some q) ∧
    (∀ cents0 r0 ch0 cents1 r1 ch1, cents0.length = 1 →
      reseedGo [((2 : ℚ), (3 : ℚ))] cents0 1 0 r0 ch0 = some (cents1, r1, ch1) →
      ∀ j, j < 1 → cents0.get? j = some none →
      ∃ q ∈ [((2 : ℚ), (3 : ℚ))], cents1.get? j = some (some q)) :=
  kmeans_no_nan_claim _ 1 zeroRNG 1 (by simp) (by omega) (by simp)

/-- C9 counterexample: the empty point list with `k = 5` satisfies the
claimed precondition (the list is non-empty exactly when
`1 ≤ k ∧ k ≤ |points|`, and here both sides are false), yet with one
iteration of fuel `kmeans` hits an internal error: every cluster is
empty after recomputation and the re-seed pass calls
`random.choice` on the empty point list. -/
theorem kmeans_no_error_counterexample :
    (([] : List Point) ≠ [] ↔ (1 ≤ 5 ∧ 5 ≤ ([] : List Point).length)) ∧
    kmeans ([] : List Point) 5 zeroRNG 1 = none := by
  constructor
  · simp
  · simp [kmeans, init_centroids, kmeansLoop, kmeansStep, assignPoints,
      recompute_centroids, accumulate, reseedGo, RNG.draw, List.range_succ]

/-- C9 amended: under the precondition that the point list is non-empty
exactly when `k ≥ 1` and additionally `k ≤ |points|`, `kmeans` has no
error path for any fuel and any random state. -/
theorem kmeans_no_error_amended (points : List Point) (k : Nat) (r : RNG)
    (mi : Nat) (h1 : points = [] ↔ k = 0) (h2 : k ≤ points.length) :
    (kmeans points k r mi).isSome := by
  by_cases hp : points = []
  · have hk0 : k = 0 := h1.mp hp
    subst hk0
    subst hp
    cases mi with
    | zero => simp [kmeans, init_centroids, kmeansLoop]
    | succ n =>
      simp [kmeans, init_centroids, kmeansLoop, kmeansStep, assignPoints,
        recompute_centroids, accumulate, reseedGo]
  · have hk : 1 ≤ k := by
      rcases Nat.eq_zero_or_pos k with h | h
      · exact absurd (h1.mpr h) hp
      · exact h
    obtain ⟨asgn, cents, r2, h0, _⟩ := kmeans_spec points k r mi hp hk h2
    rw [h0]
    rfl

/-- Concrete instance of `kmeans_no_error_amended`: one point, one
cluster, three iterations of fuel. -/
theorem kmeans_no_error_amended_witness :
    (kmeans [((0 : ℚ), (0 : ℚ))] 1 zeroRNG 3).isSome :=
  kmeans_no_error_amended _ 1 zeroRNG 3 (by simp) (by simp)

/-- The instrumented loop computes exactly what `kmeansLoop` computes. -/
lemma kmeansLoop_eq_count (points : List Point) (k : Nat) :
    ∀ fuel st, kmeansLoop points k fuel st =
      Option.map Prod.fst (kmeansLoopCount points k fuel st) := by
  intro fuel
  induction fuel with
  | zero => intro st; rfl
  | succ fuel ih =>
    intro st
    cases hstep : kmeansStep points k st with
    | none => simp [kmeansLoop, kmeansLoopCount, hstep]
    | some stch =>
      obtain ⟨st2, ch⟩ := stch
      cases ch with
      | false => simp [kmeansLoop, kmeansLoopCount, hstep]
      | true =>
        simp only [kmeansLoop, kmeansLoopCount, hstep]
        rw [ih st2]
        cases kmeansLoopCount points k fuel st2 with
        | none => rfl
        | some p => rfl

/-- One unconditional cycle from a state is the cycle itself. -/
lemma stepsFrom_one (points : List Point) (k : Nat) (st st2 : KState)
    (ch : Bool) (hstep : kmeansStep points k st = some (st2, ch)) :
    stepsFrom points k st 1 = some (st2, ch) := by
  simp [stepsFrom, hstep]

/-- Unconditional cycles from `st` and from its successor state agree,
shifted by one, from the second cycle on. -/
lemma stepsFrom_shift (points : List Point) (k : Nat) (st st2 : KState)
    (ch : Bool) (hstep : kmeansStep points k st = some (st2, ch)) :
    ∀ j, 1 ≤ j → stepsFrom points k st (j + 1) = stepsFrom points k st2 j := by
  intro j
  induction j with
  | zero => intro h; omega
  | succ j ih =>
    intro _
    by_cases hj : 1 ≤ j
    · have hr := ih hj
      show (match stepsFrom points k st (j + 1) with
        | none => none
        | some (s, _) => kmeansStep points k s) =
        (match stepsFrom points k st2 j with
        | none => none
        | some (s, _) => kmeansStep points k s)
      rw [hr]
    · have : j = 0 := by omega
      subst this
      show (match stepsFrom points k st 1 with
        | none => none
        | some (s, _) => kmeansStep points k s) =
        (match stepsFrom points k st2 0 with
        | none => none
        | some (s, _) => kmeansStep points k s)
      rw [stepsFrom_one points k st st2 ch hstep]
      rfl

/-- A `kmeansLoopCount` run returning cycle count `0` had no fuel. -/
lemma kmeansLoopCount_zero_fuel (points : List Point) (k : Nat)
    (fuel : Nat) (st stFin : KState)
    (h : kmeansLoopCount points k fuel st = some (stFin, 0)) : fuel = 0 := by
  cases fuel with
  | zero => rfl
  | succ fuel =>
    exfalso
    simp only [kmeansLoopCount] at h
    cases hstep : kmeansStep points k st with
    | none => rw [hstep] at h; simp at h
    | some stch =>
      obtain ⟨st2, ch⟩ := stch
      rw [hstep] at h
      cases ch with
      | false => simp at h
      | true =>
        simp only [if_true] at h
        cases hcnt : kmeansLoopCount points k fuel st2 with
        | none => rw [hcnt] at h; simp at h
        | some p => rw [hcnt] at h; simp at h

/-- Trajectory of the counted loop: the count is bounded by the fuel,
running that many unconditional cycles reproduces the final state, all
intermediate cycles reported a change, and an early stop means the last
cycle reported none. -/
lemma kmeansLoopCount_traj (points : List Point) (k : Nat) :
    ∀ fuel (st stFin : KState) (m : Nat),
    kmeansLoopCount points k fuel st = some (stFin, m) →
    m ≤ fuel ∧
    ∃ chm, stepsFrom points k st m = some (stFin, chm) ∧
      (∀ j, 0 < j → j < m → ∃ s2, stepsFrom points k st j = some (s2, true)) ∧
      (m < fuel → chm = false) := by
  intro fuel
  induction fuel with
  | zero =>
    intro st stFin m h
    simp only [kmeansLoopCount, Option.some.injEq, Prod.mk.injEq] at h
    obtain ⟨h1, h2⟩ := h
    subst h1
    subst h2
    exact ⟨le_refl 0, true, rfl, fun j hj0 hjm => by omega, fun hf => by omega⟩
  | succ fuel ih =>
    intro st stFin m h
    simp only [kmeansLoopCount] at h
    cases hstep : kmeansStep points k st with
    | none => rw [hstep] at h; simp at h
    | some stch =>
      obtain ⟨st2, ch⟩ := stch
      rw [hstep] at h
      cases ch with
      | false =>
        simp only [Bool.false_eq_true, if_false, Option.some.injEq,
          Prod.mk.injEq] at h
        obtain ⟨h1, h2⟩ := h
        subst h1
        subst h2
        exact ⟨by omega, false, stepsFrom_one points k st _ false hstep,
          fun j hj0 hjm => by omega, fun _ => rfl⟩
      | true =>
        simp only [if_true] at h
        cases hcnt : kmeansLoopCount points k fuel st2 with
        | none => rw [hcnt] at h; simp at h
        | some p =>
          obtain ⟨st3, m0⟩ := p
          rw [hcnt] at h
          simp only [Option.some.injEq, Prod.mk.injEq] at h
          obtain ⟨h1, h2⟩ := h
          subst h1
          subst h2
          obtain ⟨hle, chm, hsteps, hmid, hlast⟩ := ih st2 _ m0 hcnt
          by_cases hm0 : m0 = 0
          · subst hm0
            have hf0 : fuel = 0 := kmeansLoopCount_zero_fuel points k fuel st2 _ hcnt
            subst hf0
            simp only [kmeansLoopCount, Option.some.injEq, Prod.mk.injEq] at hcnt
            obtain ⟨hc1, _⟩ := hcnt
            subst hc1
            exact ⟨by omega, true, stepsFrom_one points k st _ true hstep,
              fun j hj0 hjm => by omega, fun hf => by omega⟩
          · refine ⟨by omega, chm, ?_, ?_, ?_⟩
            · rw [stepsFrom_shift points k st st2 true hstep m0 (by omega)]
              exact hsteps
            · intro j hj0 hjm
              match j, hj0 with
              | 1, _ => exact ⟨st2, stepsFrom_one points k st st2 true hstep⟩
              | j + 2, _ =>
                rw [stepsFrom_shift points k st st2 true hstep (j + 1) (by omega)]
                exact hmid (j + 1) (by omega) (by omega)
            · intro hf
              exact hlast (by omega)

/-- C5: `kmeans`'s loop performs at most `fuel = max_iter`
assign/recompute cycles; when it stops early the last executed cycle
reported no assignment change and no re-seed, every earlier cycle
reported a change, and a re-seed alone forces the change flag (a
`changed = false` outcome of the re-seed pass means nothing was
re-seeded and the assignments had not changed either). -/
theorem kmeans_convergence_claim (points : List Point) (k : Nat)
    (fuel : Nat) (st stFin : KState) (m : Nat)
    (h : kmeansLoopCount points k fuel st = some (stFin, m)) :
    m ≤ fuel ∧
    kmeansLoop points k fuel st = some stFin ∧
    (∃ chm, stepsFrom points k st m = some (stFin, chm) ∧
      (∀ j, 0 < j → j < m → ∃ s2, stepsFrom points k st j = some (s2, true)) ∧
      (m < fuel → chm = false)) ∧
    (∀ cents r ch cents2 r2 ch2,
      reseedGo points cents k 0 r ch = some (cents2, r2, ch2) → ch2 = false →
      cents2 = cents ∧ r2 = r ∧ ch = false) := by
  obtain ⟨h1, h2⟩ := kmeansLoopCount_traj points k fuel st stFin m h
  refine ⟨h1, ?_, h2, ?_⟩
  · rw [kmeansLoop_eq_count, h]
    rfl
  · intro cents r ch cents2 r2 ch2 hrun hch
    exact reseedGo_flag points k k 0 cents r ch cents2 r2 ch2 (by omega) hrun hch

/-- Concrete instance of `kmeans_convergence_claim`: a single point,
one cluster, two iterations of fuel; the loop converges after one
cycle. -/
theorem kmeans_convergence_claim_witness :
    (1 : Nat) ≤ 2 ∧
    kmeansLoop [((0 : ℚ), (0 : ℚ))] 1 2 ([0], [some ((0 : ℚ), (0 : ℚ))], zeroRNG) =
      some ([0], [some ((0 : ℚ), (0 : ℚ))], zeroRNG) ∧
    (∃ chm, stepsFrom [((0 : ℚ), (0 : ℚ))] 1
        ([0], [some ((0 : ℚ), (0 : ℚ))], zeroRNG) 1 =
        some (([0], [some ((0 : ℚ), (0 : ℚ))], zeroRNG), chm) ∧
      (∀ j, 0 < j → j < 1 → ∃ s2, stepsFrom [((0 : ℚ), (0 : ℚ))] 1
          ([0], [some ((0 : ℚ), (0 : ℚ))], zeroRNG) j = some (s2, true)) ∧
      (1 < 2 → chm = false)) ∧
    (∀ cents r ch cents2 r2 ch2,
      reseedGo [((0 : ℚ), (0 : ℚ))] cents 1 0 r ch = some (cents2, r2, ch2) →
      ch2 = false → cents2 = cents ∧ r2 = r ∧ ch = false) :=
  kmeans_convergence_claim [((0 : ℚ), (0 : ℚ))] 1 2
    ([0], [some ((0 : ℚ), (0 : ℚ))], zeroRNG)
    ([0], [some ((0 : ℚ), (0 : ℚ))], zeroRNG) 1
    (by
      simp [kmeansLoopCount, kmeansStep, assignPoints, bestCluster, bestClusterGo,
        recompute_centroids, accumulate, reseedGo, euclidean2, RNG.draw,
        List.range_succ])

/-- On the duplicate-point input, one loop cycle leaves the assignments
at `[0, 0]`, recomputes centroid 0 as the mean `(0, 0)`, re-seeds the
empty cluster 1 with the drawn point `(0, 0)`, and reports a change. -/
lemma dupStep (r : RNG) (hr : ∀ i, r.stream i = 0) :
    kmeansStep dupPoints 2
      ([0, 0], [some ((0 : ℚ), (0 : ℚ)), some ((0 : ℚ), (0 : ℚ))], r) =
      some (([0, 0], [some ((0 : ℚ), (0 : ℚ)), some ((0 : ℚ), (0 : ℚ))], r.next),
        true) := by
  simp [kmeansStep, assignPoints, bestCluster, bestClusterGo, recompute_centroids,
    accumulate, reseedGo, euclidean2, RNG.draw, List.range_succ, dupPoints, hr]

/-- On the duplicate-point input the loop re-seeds cluster 1 every
cycle, so it never converges: for every fuel the final assignments and
centroids are unchanged. -/
lemma dupLoop : ∀ (fuel : Nat) (r : RNG), (∀ i, r.stream i = 0) →
    (kmeansLoop dupPoints 2 fuel
      ([0, 0], [some ((0 : ℚ), (0 : ℚ)), some ((0 : ℚ), (0 : ℚ))], r)).map
      (fun st => (st.1, st.2.1)) =
    some ([0, 0], [some ((0 : ℚ), (0 : ℚ)), some ((0 : ℚ), (0 : ℚ))]) := by
  intro fuel
  induction fuel with
  | zero => intro r hr; rfl
  | succ fuel ih =>
    intro r hr
    rw [kmeansLoop, dupStep r hr]
    simpa using ih r.next (fun i => hr (i + 1))

/-- C6 counterexample: on the duplicate-point list `[(0,0), (0,0)]`
with `K = 2 = |points|` and the default `max_iterations = 30`, both
points end in cluster 0, so cluster 1 ends with zero assigned points —
not "exactly one" as the claim states for every input. -/
theorem kmeans_degenerate_counterexample :
    (kmeans dupPoints 2 zeroRNG 30).map (fun st => (st.1.count 1, st.2.1)) =
      some (0, [some ((0 : ℚ), (0 : ℚ)), some ((0 : ℚ), (0 : ℚ))]) := by
  have h := dupLoop 30 zeroRNG (fun i => rfl)
  have e : kmeans dupPoints 2 zeroRNG 30 =
      kmeansLoop dupPoints 2 30
        ([0, 0], [some ((0 : ℚ), (0 : ℚ)), some ((0 : ℚ), (0 : ℚ))], zeroRNG) := rfl
  rw [e]
  cases hx : kmeansLoop dupPoints 2 30
      ([0, 0], [some ((0 : ℚ), (0 : ℚ)), some ((0 : ℚ), (0 : ℚ))], zeroRNG) with
  | none => rw [hx] at h; simp at h
  | some st =>
    rw [hx] at h
    simp only [Option.map_some', Option.some.injEq, Prod.mk.injEq] at h ⊢
    exact ⟨by rw [h.1]; decide, h.2⟩

/-- C10: an input satisfying the engine's precondition (two coincident
points, `K = 2`, one iteration) for which `kmeans` returns assignments
`[0, 0]`: cluster 1 has zero assigned points while its centroid was
re-seeded to the defined point `(0, 0)`, so a summary row can report
size 0 with a defined centroid. -/
theorem kmeans_empty_cluster_claim :
    (kmeans dupPoints 2 zeroRNG 1).map (fun st => (st.1, st.1.count 1, st.2.1)) =
      some ([0, 0], 0, [some ((0 : ℚ), (0 : ℚ)), some ((0 : ℚ), (0 : ℚ))]) := by
  have e : kmeans dupPoints 2 zeroRNG 1 =
      kmeansLoop dupPoints 2 1
        ([0, 0], [some ((0 : ℚ), (0 : ℚ)), some ((0 : ℚ), (0 : ℚ))], zeroRNG) := rfl
  rw [e, kmeansLoop, dupStep zeroRNG (fun i => rfl)]
  rfl

/-- Filtering `ps.zip (range' s |ps|)` for a fixed index keeps exactly
the pair at that index (or nothing, below the start). -/
lemma zip_range'_filter (ps : List Point) : ∀ s i,
    ((s ≤ i ∧ i < s + ps.length) →
      (ps.zip (List.range' s ps.length)).filter (fun pc => pc.2 == i) =
        [(ps.getD (i - s) ((0 : ℚ), (0 : ℚ)), i)]) ∧
    (i < s →
      (ps.zip (List.range' s ps.length)).filter (fun pc => pc.2 == i) = []) := by
  induction ps with
  | nil => intro s i; simp
  | cons p ps ih =>
    intro s i
    have hzip : (p :: ps).zip (List.range' s (p :: ps).length) =
        (p, s) :: ps.zip (List.range' (s + 1) ps.length) := by
      rw [List.length_cons, List.range'_succ, List.zip_cons_cons]
    constructor
    · intro ⟨hsi, hil⟩
      rw [List.length_cons] at hil
      rw [hzip]
      by_cases his : i = s
      · subst his
        rw [List.filter_cons]
        simp only [beq_self_eq_true, if_true]
        rw [(ih (i + 1) i).2 (by omega)]
        simp
      · rw [List.filter_cons]
        have hne : (s == i) = false := by
          simp only [beq_eq_false_iff_ne, ne_eq]
          omega
        rw [hne]
        simp only [Bool.false_eq_true, if_false]
        rw [(ih (s + 1) i).1 ⟨by omega, by omega⟩]
        have : i - s = (i - (s + 1)) + 1 := by omega
        rw [this]
        simp
    · intro his
      rw [hzip, List.filter_cons]
      have hne : (s == i) = false := by
        simp only [beq_eq_false_iff_ne, ne_eq]
        omega
      rw [hne]
      simp only [Bool.false_eq_true, if_false]
      exact (ih (s + 1) i).2 (by omega)

/-- In `points.zip (range |points|)`, index `i < |points|` is carried by
exactly one pair, whose point is the `i`-th one. -/
lemma zip_range_stats (ps : List Point) (i : Nat) (hi : i < ps.length) :
    countIdx i (ps.zip (List.range ps.length)) = 1 ∧
    sumFst i (ps.zip (List.range ps.length)) = (ps.getD i ((0 : ℚ), (0 : ℚ))).1 ∧
    sumSnd i (ps.zip (List.range ps.length)) = (ps.getD i ((0 : ℚ), (0 : ℚ))).2 := by
  have h := (zip_range'_filter ps 0 i).1 ⟨by omega, by omega⟩
  rw [List.range_eq_range'] at *
  rw [countIdx, sumFst, sumSnd, h]
  simp

/-- Recomputing centroids from the identity assignment on distinct
indices returns every point as its own cluster's centroid. -/
lemma recompute_id (points : List Point) :
    recompute_centroids points (List.range points.length) points.length =
      some (points.map some) := by
  obtain ⟨cents, hrec, hclen, hpt⟩ :=
    recompute_centroids_spec points (List.range points.length) points.length
      (fun a ha => List.mem_range.mp ha)
  rw [hrec]
  congr 1
  apply List.ext_get?
  intro m
  by_cases hm : m < points.length
  · obtain ⟨h1, h2, h3⟩ := zip_range_stats points m hm
    rw [hpt m hm, h1, h2, h3]
    rw [List.get?_map, List.get?_eq_get hm]
    have hg : points.getD m ((0 : ℚ), (0 : ℚ)) = points.get ⟨m, hm⟩ := by
      rw [List.getD_eq_get?, List.get?_eq_get hm]
      rfl
    simp [hg, List.getElem?_eq_getElem hm]
  · rw [List.get?_eq_none.mpr (by omega), List.get?_eq_none.mpr (by simpa using by omega)]

/-- The re-seed loop is the identity when every centroid from `c` on is
defined. -/
lemma reseedGo_no_nan (points : List Point) (k : Nat) :
    ∀ n c (cents : List (Option Point)) (r : RNG) (ch : Bool), k - c ≤ n →
    (∀ j, c ≤ j → j < k → ∃ q, cents.get? j = some (some q)) →
    reseedGo points cents k c r ch = some (cents, r, ch) := by
  intro n
  induction n with
  | zero =>
    intro c cents r ch hn hdef
    rw [reseedGo, dif_pos (by omega)]
  | succ n ih =>
    intro c cents r ch hn hdef
    by_cases hkc : k ≤ c
    · rw [reseedGo, dif_pos hkc]
    · obtain ⟨q, hq⟩ := hdef c (le_refl c) (by omega)
      rw [reseedGo, dif_neg hkc, hq]
      exact ih (c + 1) cents r ch (by omega) (fun j hj hjk => hdef j (by omega) hjk)

/-- On a duplicate-free point list whose centroids are the points
themselves, the assign step sends point `i` to cluster `i`. -/
lemma assign_id (points : List Point) (hd : points.Nodup) (hp : points ≠ [])
    (asgn : List Nat) (hlen : asgn.length = points.length) :
    ∃ ch, assignPoints points (points.map some) points.length asgn =
      some (List.range points.length, ch) ∧
      (ch = false ↔ List.range points.length = asgn) := by
  have hk : 0 < points.length := List.length_pos.mpr hp
  have hq : ∀ j, j < points.length →
      (points.map some).get? j = some (some (points.getD j ((0 : ℚ), (0 : ℚ)))) := by
    intro j hj
    rw [List.get?_map, List.get?_eq_get hj]
    have : points.getD j ((0 : ℚ), (0 : ℚ)) = points.get ⟨j, hj⟩ := by
      rw [List.getD_eq_get?, List.get?_eq_get hj]
      rfl
    rw [this]
    rfl
  obtain ⟨bs, ch, hr, hblen, hbmem, hch, hpt⟩ :=
    assignPoints_spec (points.map some) points.length _ hq hk points asgn hlen
  have hbs : bs = List.range points.length := by
    apply List.ext_get?
    intro m
    by_cases hm : m < points.length
    · rw [List.get?_range hm]
      obtain ⟨b, hb, hbk, hmin, _⟩ := hpt m (points.get ⟨m, hm⟩) (List.get?_eq_get hm)
      have hgm : points.getD m ((0 : ℚ), (0 : ℚ)) = points.get ⟨m, hm⟩ := by
        rw [List.getD_eq_get?, List.get?_eq_get hm]
        rfl
      have hgb : points.getD b ((0 : ℚ), (0 : ℚ)) = points.get ⟨b, hbk⟩ := by
        rw [List.getD_eq_get?, List.get?_eq_get hbk]
        rfl
      have h0 : euclidean2 (points.get ⟨m, hm⟩) (points.getD b ((0 : ℚ), (0 : ℚ))) = 0 := by
        have hle := hmin m hm
        rw [hgm, euclidean2_self] at hle
        exact le_antisymm hle (euclidean2_nonneg _ _)
      have heq : points.get ⟨b, hbk⟩ = points.get ⟨m, hm⟩ := by
        rw [hgb] at h0
        exact (euclidean2_eq_zero h0).symm
      have hbm : b = m := by
        have := (hd.get_inj_iff).mp heq
        exact congrArg Fin.val this
      rw [hb, hbm]
    · rw [List.get?_eq_none.mpr (by omega), List.get?_eq_none.mpr (by simpa using by omega)]
  subst hbs
  exact ⟨ch, hr, hch⟩

/-- One cycle on a duplicate-free point list, starting from centroids
equal to the points: assignments become the identity, centroids stay
the points, nothing is re-seeded. -/
lemma degenerate_step (points : List Point) (hd : points.Nodup)
    (hp : points ≠ []) (r : RNG) (asgn : List Nat)
    (hlen : asgn.length = points.length) :
    ∃ ch, kmeansStep points points.length (asgn, points.map some, r) =
      some ((List.range points.length, points.map some, r), ch) ∧
      (ch = false ↔ List.range points.length = asgn) := by
  obtain ⟨ch, hassign, hch⟩ := assign_id points hd hp asgn hlen
  refine ⟨ch, ?_, hch⟩
  have hreseed : reseedGo points (points.map some) points.length 0 r ch =
      some (points.map some, r, ch) := by
    apply reseedGo_no_nan points points.length points.length 0
    · omega
    · intro j _ hjk
      refine ⟨points.get ⟨j, hjk⟩, ?_⟩
      rw [List.get?_map, List.get?_eq_get hjk]
      rfl
  simp only [kmeansStep, hassign, recompute_id, hreseed]

/-- On a duplicate-free point list the identity state is a fixed point
of the loop, for any fuel. -/
lemma degenerate_loop (points : List Point) (hd : points.Nodup)
    (hp : points ≠ []) (r : RNG) :
    ∀ fuel, kmeansLoop points points.length fuel
      (List.range points.length, points.map some, r) =
      some (List.range points.length, points.map some, r) := by
  intro fuel
  cases fuel with
  | zero => rfl
  | succ fuel =>
    obtain ⟨ch, hstep, hch⟩ := degenerate_step points hd hp r
      (List.range points.length) (by simp)
    have hchf : ch = false := hch.mpr rfl
    subst hchf
    rw [kmeansLoop, hstep]
    rfl

/-- C6 amended: on a point list with pairwise distinct points and
`K = |points|` (the value the clamp produces), `kmeans` initialises the
centroids to the points themselves in order, and for any positive
iteration bound returns the identity assignment with each point as its
own cluster's centroid: every cluster ends with exactly one point,
whose coordinates equal that cluster's centroid. -/
theorem kmeans_degenerate_amended (points : List Point) (k mi : Nat) (r : RNG)
    (hd : points.Nodup) (hk : k = points.length) (hp : points ≠ [])
    (hmi : 1 ≤ mi) :
    init_centroids points k r = some (points, r) ∧
    kmeans points k r mi = some (List.range points.length, points.map some, r) ∧
    ∀ c, c < k → (List.range points.length).count c = 1 := by
  subst hk
  have hinit : init_centroids points points.length r = some (points, r) := by
    rw [init_centroids, if_pos (le_refl _)]
  refine ⟨hinit, ?_, ?_⟩
  · simp only [kmeans, hinit]
    cases mi with
    | zero => omega
    | succ f =>
      obtain ⟨ch, hstep, _⟩ := degenerate_step points hd hp r
        (List.replicate points.length 0) (by simp)
      rw [kmeansLoop, hstep]
      cases ch with
      | false => rfl
      | true =>
        simp only [if_true]
        exact degenerate_loop points hd hp r f
  · intro c hc
    exact List.count_eq_one_of_mem (List.nodup_range _) (List.mem_range.mpr hc)

/-- Concrete instance of `kmeans_degenerate_amended`: two distinct
points, `K = 2`, the default 30 iterations. -/
theorem kmeans_degenerate_amended_witness :
    init_centroids [((0 : ℚ), (0 : ℚ)), ((1 : ℚ), (1 : ℚ))] 2 zeroRNG =
      some ([((0 : ℚ), (0 : ℚ)), ((1 : ℚ), (1 : ℚ))], zeroRNG) ∧
    kmeans [((0 : ℚ), (0 : ℚ)), ((1 : ℚ), (1 : ℚ))] 2 zeroRNG 30 =
      some (List.range 2, [((0 : ℚ), (0 : ℚ)), ((1 : ℚ), (1 : ℚ))].map some, zeroRNG) ∧
    ∀ c, c < 2 → (List.range 2).count c = 1 :=
  kmeans_degenerate_amended [((0 : ℚ), (0 : ℚ)), ((1 : ℚ), (1 : ℚ))] 2 30 zeroRNG
    (by simp) rfl (by simp) (by omega)

/-- With a single cluster every point is assigned index 0. -/
lemma assign_zero (points : List Point) (c0 : Point)
    (cents : List (Option Point)) (hc : cents.get? 0 = some (some c0))
    (asgn : List Nat) (hlen : asgn.length = points.length) :
    ∃ ch, assignPoints points cents 1 asgn =
      some (List.replicate points.length 0, ch) ∧
      (ch = false ↔ List.replicate points.length 0 = asgn) := by
  have hq : ∀ j, j < 1 → cents.get? j = some (some c0) := by
    intro j hj
    have : j = 0 := by omega
    subst this
    exact hc
  obtain ⟨bs, ch, hr, hblen, hbmem, hch, hpt⟩ :=
    assignPoints_spec cents 1 (fun _ => c0) hq (by omega) points asgn hlen
  have hbs : bs = List.replicate points.length 0 := by
    apply List.ext_get?
    intro m
    by_cases hm : m < points.length
    · obtain ⟨b, hb, hbk, _, _⟩ := hpt m (points.get ⟨m, hm⟩) (List.get?_eq_get hm)
      have : b = 0 := by omega
      subst this
      rw [hb, get?_replicate_of_lt hm]
    · rw [List.get?_eq_none.mpr (by omega), List.get?_eq_none.mpr (by simpa using by omega)]
  subst hbs
  exact ⟨ch, hr, hch⟩

/-- All the pairs of `points.zip (replicate |points| 0)` carry index 0,
so cluster 0 holds every point and the coordinate sums are the full
sums. -/
lemma zip_replicate_stats (ps : List Point) :
    countIdx 0 (ps.zip (List.replicate ps.length 0)) = ps.length ∧
    sumFst 0 (ps.zip (List.replicate ps.length 0)) = (ps.map Prod.fst).sum ∧
    sumSnd 0 (ps.zip (List.replicate ps.length 0)) = (ps.map Prod.snd).sum := by
  induction ps with
  | nil => simp [countIdx, sumFst, sumSnd]
  | cons p ps ih =>
    obtain ⟨ih1, ih2, ih3⟩ := ih
    have hzip : (p :: ps).zip (List.replicate (p :: ps).length 0) =
        (p, 0) :: ps.zip (List.replicate ps.length 0) := by
      rw [List.length_cons, List.replicate_succ, List.zip_cons_cons]
    rw [countIdx, sumFst, sumSnd, hzip, List.filter_cons]
    simp only [beq_self_eq_true, if_true, List.length_cons, List.map_cons,
      List.sum_cons]
    refine ⟨?_, ?_, ?_⟩
    · rw [show (List.filter (fun pc => pc.2 == 0)
        (ps.zip (List.replicate ps.length 0))).length = ps.length from ih1]
    · rw [show (List.map (fun pc => pc.1.1) (List.filter (fun pc => pc.2 == 0)
        (ps.zip (List.replicate ps.length 0)))).sum = (List.map Prod.fst ps).sum from ih2]
    · rw [show (List.map (fun pc => pc.1.2) (List.filter (fun pc => pc.2 == 0)
        (ps.zip (List.replicate ps.length 0)))).sum = (List.map Prod.snd ps).sum from ih3]

/-- Recomputing a single cluster's centroid over the all-zero
assignment yields the arithmetic mean of all points. -/
lemma recompute_one (points : List Point) (hp : points ≠ []) :
    recompute_centroids points (List.replicate points.length 0) 1 =
      some [some (meanPoint points)] := by
  obtain ⟨cents, hrec, hclen, hpt⟩ :=
    recompute_centroids_spec points (List.replicate points.length 0) 1
      (fun a ha => by
        have := List.eq_of_mem_replicate ha
        omega)
  obtain ⟨x, rfl⟩ := List.length_eq_one.mp hclen
  obtain ⟨c1, c2, c3⟩ := zip_replicate_stats points
  have h0 := hpt 0 (by omega)
  rw [c1, c2, c3] at h0
  have hn0 : points.length ≠ 0 := by
    intro h
    exact hp (List.length_eq_zero.mp h)
  rw [if_neg hn0] at h0
  simp only [List.get?] at h0
  rw [hrec]
  simp only [Option.some.injEq] at h0 ⊢
  rw [show x = some (meanPoint points) from by rw [h0]; rfl]

/-- C7: whenever `choose_k` selects a single cluster for a non-empty
group, `kmeans` with `K = 1` and at least one iteration assigns every
point cluster index 0 and returns the arithmetic mean of all
coordinates as the single centroid; for a one-point group that centroid
is the point itself. -/
theorem kmeans_single_cluster_claim (points : List Point) (tc : ℤ) (r : RNG)
    (mi : Nat) (hp : points ≠ [])
    (hck : choose_k (points.length : ℤ) tc = 1) (hmi : 1 ≤ mi) :
    (∃ r2, kmeans points 1 r mi =
      some (List.replicate points.length 0, [some (meanPoint points)], r2)) ∧
    (∀ p, points = [p] → meanPoint points = p) := by
  constructor
  · have hk2 : 1 ≤ points.length := List.length_pos.mpr hp
    obtain ⟨cs, r2, hinit, hcl, _⟩ := init_centroids_some points 1 r hk2
    obtain ⟨c0, rfl⟩ := List.length_eq_one.mp hcl
    refine ⟨r2, ?_⟩
    simp only [kmeans, hinit]
    cases mi with
    | zero => omega
    | succ f =>
      obtain ⟨ch, hassign, hch⟩ := assign_zero points c0 ([c0].map some) rfl
        (List.replicate points.length 0) (by simp)
      have hchf : ch = false := hch.mpr rfl
      subst hchf
      have hreseed : reseedGo points [some (meanPoint points)] 1 0 r2 false =
          some ([some (meanPoint points)], r2, false) := by
        apply reseedGo_no_nan points 1 1 0
        · omega
        · intro j _ hjk
          have : j = 0 := by omega
          subst this
          exact ⟨meanPoint points, rfl⟩
      have hstep : kmeansStep points 1
          (List.replicate points.length 0, [c0].map some, r2) =
          some ((List.replicate points.length 0, [some (meanPoint points)], r2),
            false) := by
        simp only [kmeansStep, hassign, recompute_one points hp, hreseed]
      rw [kmeansLoop, hstep]
      rfl
  · intro p hpe
    subst hpe
    simp [meanPoint]

/-- Concrete instance of `kmeans_single_cluster_claim`: two points with
`target_capacity = 12`, for which `choose_k` picks one cluster. -/
theorem kmeans_single_cluster_claim_witness :
    (∃ r2, kmeans [((1 : ℚ), (2 : ℚ)), ((3 : ℚ), (4 : ℚ))] 1 zeroRNG 30 =
      some (List.replicate 2 0,
        [some (meanPoint [((1 : ℚ), (2 : ℚ)), ((3 : ℚ), (4 : ℚ))])], r2)) ∧
    (∀ p, [((1 : ℚ), (2 : ℚ)), ((3 : ℚ), (4 : ℚ))] = [p] →
      meanPoint [((1 : ℚ), (2 : ℚ)), ((3 : ℚ), (4 : ℚ))] = p) :=
  kmeans_single_cluster_claim [((1 : ℚ), (2 : ℚ)), ((3 : ℚ), (4 : ℚ))] 12 zeroRNG 30
    (by simp)
    (by
      show choose_k 2 12 = 1
      have hm : (max 1 (12 : ℤ)) = 12 := rfl
      rw [choose_k, if_neg (by omega), hm]
      have hc : ⌈((2 : ℤ) : ℚ) / ((12 : ℤ) : ℚ)⌉ = 1 := by
        rw [Int.ceil_eq_iff]
        constructor <;> norm_num
      rw [hc]
      omega)
    (by omega)

/-- C1: the embedded batch pipeline is a pure function of the input
rows (in order), the target capacity, the iteration bound and the
seeded random stream: two runs on identical inputs produce identical
per-record assignment rows and identical per-cluster summary rows. -/
theorem mainProcess_deterministic (rows₁ rows₂ : List Record) (tc₁ tc₂ : ℤ)
    (mi₁ mi₂ : Nat) (r₁ r₂ : RNG)
    (hrows : rows₁ = rows₂) (htc : tc₁ = tc₂) (hmi : mi₁ = mi₂)
    (hr : r₁ = r₂) :
    mainProcess rows₁ tc₁ mi₁ r₁ = mainProcess rows₂ tc₂ mi₂ r₂ := by
  subst hrows
  subst htc
  subst hmi
  subst hr
  rfl

/-- Concrete instance of `mainProcess_deterministic`: a one-record
batch with the default parameters, run twice. -/
theorem mainProcess_deterministic_witness :
    mainProcess [⟨"Mon", "08:00", "09:00", "U1", "R1", "S1", 0, 0⟩] 12 30 zeroRNG =
      mainProcess [⟨"Mon", "08:00", "09:00", "U1", "R1", "S1", 0, 0⟩] 12 30 zeroRNG :=
  mainProcess_deterministic _ _ _ _ _ _ _ _ rfl rfl rfl rfl

end ClassRide
